import Mathlib

/-!
Verification of the HOG archive engine (hogdump).

Shallow embedding of `src/hog.rs`, `src/util.rs`, `src/error.rs` and the
extraction driver `hog_dump` of `src/main.rs`.

Modelling conventions:
* Bytes are `Nat` (values below 256 in any real stream); byte strings are
  `List Nat`.  A filename is represented by the UTF-8 bytes of the Rust
  string (`file_name.bytes()` on the writer side, the bytes of the decoded
  `&str` on the reader side).
* A seekable readable file is an `RStream`: the immutable byte content plus
  a cursor position.  `read` on such an in-memory stream is deterministic:
  it returns `min (requested, remaining)` bytes; it never fails and an
  in-memory seek never fails, so the I/O-error branches of the Rust code
  (`ReadHeaderError`, `SeekFailure`, and the `ErrorKind::Interrupted` retry
  loops) are unreachable in the model.
* Fallible Rust functions returning `Result<T, HogError>` become
  `Except HogError T`.  The `panic!` in `copy_cur_file` is modelled by a
  dedicated `CopyResult.panicked` outcome.
* Loops (`Iterator` driving in `hog_dump`, full traversals) are embedded
  with a fuel parameter; fuel exhaustion is `none` and every theorem
  supplies sufficient fuel.
-/

/-- The error enum of `src/error.rs` (`HogError`).  The wrapped
`std::io::Error` payloads carry no information used by the control flow, so
they are dropped; the `u64` payload of `FileTooLarge` and the `String` of
`BadHogFilename` are kept abstractly where cheap. -/
inductive HogError where
  | OpenHogFailure
  | OpenOutputFailure
  | OpenInputFailure
  | SignatureReadFailure
  | SignatureWriteFailure
  | InvalidSignature
  | ReadHeaderError
  | UnexpectedEof
  | InvalidFilename
  | ExtractFailure
  | AppendToHogFailure
  | SeekFailure
  | HogFilenameTooLong
  | FileTooLarge (len : Nat)
  | BadHogFilename
deriving DecidableEq, Repr

/-- Decidable equality for `Except`, used to evaluate the model on
concrete inputs. -/
instance {ε α : Type} [DecidableEq ε] [DecidableEq α] : DecidableEq (Except ε α) := fun x y =>
  match x, y with
  | .ok a, .ok b =>
    if h : a = b then .isTrue (congrArg Except.ok h)
    else .isFalse (fun hh => h (Except.ok.inj hh))
  | .error a, .error b =>
    if h : a = b then .isTrue (congrArg Except.error h)
    else .isFalse (fun hh => h (Except.error.inj hh))
  | .ok _, .error _ => .isFalse (fun hh => Except.noConfusion hh)
  | .error _, .ok _ => .isFalse (fun hh => Except.noConfusion hh)

/-- The three signature bytes `b"DHF"` (`HOG_SIGNATURE` in `src/hog.rs`). -/
def HOG_SIGNATURE : List Nat := [68, 72, 70]

/-- An in-memory model of a seekable, readable file: the full byte content
together with the current stream position. -/
structure RStream where
  data : List Nat
  pos : Nat
deriving DecidableEq, Repr

/-- The bytes from the current position to the end of the stream. -/
def RStream.remaining (s : RStream) : List Nat := s.data.drop s.pos

/-- The decoded record header (`HogRecord` of `src/hog.rs`): the filename
(as its UTF-8 bytes; the Rust field is a `PathBuf` built from the decoded
`&str`) and the payload length (the `u32` value, host order). -/
structure HogRecord where
  filename : List Nat
  length : Nat
deriving DecidableEq, Repr

/-- The raw on-disk record header (`RawHogRecord` of `src/hog.rs`,
`repr(C, packed)`, 17 bytes): 13 filename bytes followed by the 4
little-endian length bytes. -/
structure RawHogRecord where
  filename : List Nat
  length_le : List Nat
deriving DecidableEq, Repr

/-- Reinterpreting 17 raw bytes as a `RawHogRecord`
(`bytemuck::from_bytes`): the first 13 bytes are the filename field, the
remaining 4 are the little-endian length field. -/
def rawOfBytes (b : List Nat) : RawHogRecord :=
  ⟨b.take 13, b.drop 13⟩

/-- The first chunk of `splitn(2, |x| *x == 0)`: the prefix of the list up
to (excluding) the first zero byte, or the whole list if no byte is zero.
Used by `RawHogRecord::filename_as_str` to strip the NUL padding. -/
def filename_part : List Nat → List Nat
  | [] => []
  | b :: rest => if b = 0 then [] else b :: filename_part rest

/-- Validity of a byte sequence as UTF-8, exactly the condition under which
`std::str::from_utf8` succeeds (RFC 3629: no overlong forms, no surrogate
code points, nothing above U+10FFFF).  Continuation bytes are 0x80-0xBF;
the table of legal lead/first-continuation pairs is the standard one. -/
def utf8Valid : List Nat → Bool
  | [] => true
  | b :: rest =>
    if b < 0x80 then utf8Valid rest
    else if 0xC2 ≤ b ∧ b ≤ 0xDF then
      match rest with
      | c1 :: rest2 => (0x80 ≤ c1 && c1 ≤ 0xBF) && utf8Valid rest2
      | [] => false
    else if b = 0xE0 then
      match rest with
      | c1 :: c2 :: rest3 =>
        (0xA0 ≤ c1 && c1 ≤ 0xBF) && (0x80 ≤ c2 && c2 ≤ 0xBF) && utf8Valid rest3
      | _ => false
    else if (0xE1 ≤ b ∧ b ≤ 0xEC) ∨ b = 0xEE ∨ b = 0xEF then
      match rest with
      | c1 :: c2 :: rest3 =>
        (0x80 ≤ c1 && c1 ≤ 0xBF) && (0x80 ≤ c2 && c2 ≤ 0xBF) && utf8Valid rest3
      | _ => false
    else if b = 0xED then
      match rest with
      | c1 :: c2 :: rest3 =>
        (0x80 ≤ c1 && c1 ≤ 0x9F) && (0x80 ≤ c2 && c2 ≤ 0xBF) && utf8Valid rest3
      | _ => false
    else if b = 0xF0 then
      match rest with
      | c1 :: c2 :: c3 :: rest4 =>
        (0x90 ≤ c1 && c1 ≤ 0xBF) && (0x80 ≤ c2 && c2 ≤ 0xBF) &&
          (0x80 ≤ c3 && c3 ≤ 0xBF) && utf8Valid rest4
      | _ => false
    else if 0xF1 ≤ b ∧ b ≤ 0xF3 then
      match rest with
      | c1 :: c2 :: c3 :: rest4 =>
        (0x80 ≤ c1 && c1 ≤ 0xBF) && (0x80 ≤ c2 && c2 ≤ 0xBF) &&
          (0x80 ≤ c3 && c3 ≤ 0xBF) && utf8Valid rest4
      | _ => false
    else if b = 0xF4 then
      match rest with
      | c1 :: c2 :: c3 :: rest4 =>
        (0x80 ≤ c1 && c1 ≤ 0x8F) && (0x80 ≤ c2 && c2 ≤ 0xBF) &&
          (0x80 ≤ c3 && c3 ≤ 0xBF) && utf8Valid rest4
      | _ => false
    else false

/-- `RawHogRecord::filename_as_str`: strip the NUL padding with
`splitn(2, == 0).next()`, then decode as UTF-8, failing with
`InvalidFilename` when decoding fails.  The result is the byte content of
the returned `&str` (identical to the retained bytes). -/
def RawHogRecord.filename_as_str (raw : RawHogRecord) : Except HogError (List Nat) :=
  let part := filename_part raw.filename
  if utf8Valid part then .ok part else .error .InvalidFilename

/-- `u32::from_le` applied to the 4 stored length bytes: the unsigned
little-endian value, independent of any host byte order (the model has no
byte order; this is the mathematical LE value). -/
def u32_from_le (b : List Nat) : Nat :=
  b.getD 0 0 + 256 * (b.getD 1 0 + 256 * (b.getD 2 0 + 256 * b.getD 3 0))

/-- `u32::to_le` on the writer side: the 4 little-endian bytes of a value
that fits in 32 bits. -/
def u32_to_le (n : Nat) : List Nat :=
  [n % 256, n / 256 % 256, n / 65536 % 256, n / 16777216 % 256]

/-- `TryFrom<&RawHogRecord> for HogRecord`: sanitize the filename
(propagating `InvalidFilename`) and convert the length from little-endian
to the native value. -/
def hogRecordOfRaw (raw : RawHogRecord) : Except HogError HogRecord :=
  match raw.filename_as_str with
  | .ok name => .ok ⟨name, u32_from_le raw.length_le⟩
  | .error e => .error e

/-- The header length `HDR_LEN = size_of::<RawHogRecord>() = 17`. -/
def HDR_LEN : Nat := 17

/-- `read_record_header` of `src/hog.rs`.  The Rust function loops calling
`r.read` until 17 bytes are collected.  Under the deterministic in-memory
read model (each read returns `min (requested, remaining)` bytes, never an
error) the loop collapses to three cases:
* nothing remaining: the very first read returns 0 bytes, so the result is
  `Ok(None)` (clean end of sequence);
* fewer than 17 bytes remaining: the first read returns them all, the
  second returns 0 with `offset > 0`, so the result is `UnexpectedEof`;
* at least 17 bytes remaining: the 17 bytes are consumed and decoded via
  `bytemuck::from_bytes` and `TryFrom`.
The returned stream reflects the bytes consumed by the reads. -/
def read_record_header (s : RStream) : Except HogError (Option HogRecord) × RStream :=
  let rem := s.remaining
  if rem.length = 0 then (.ok none, s)
  else if rem.length < HDR_LEN then
    (.error .UnexpectedEof, { s with pos := s.pos + rem.length })
  else
    match hogRecordOfRaw (rawOfBytes (rem.take HDR_LEN)) with
    | .ok hdr => (.ok (some hdr), { s with pos := s.pos + HDR_LEN })
    | .error e => (.error e, { s with pos := s.pos + HDR_LEN })

/-- `HogFileWriter` of `src/hog.rs`: the archive bytes written so far. -/
structure HogFileWriter where
  file : List Nat
deriving DecidableEq, Repr

/-- `HogFileWriter::create`: create/truncate the target and write the
3-byte signature.  File creation and the signature write cannot fail on
the in-memory model, so the `OpenHogFailure` / `SignatureWriteFailure`
branches are unreachable and the result is total. -/
def HogFileWriter.create : HogFileWriter := ⟨HOG_SIGNATURE⟩

/-- The largest value of the 4-byte length field, `u32::MAX`. -/
def u32MAX : Nat := 4294967295

/-- `HogFileWriter::append_file`.  The host-I/O steps (opening the source
file, reading its metadata, extracting the final path component with
`Path::file_name` and `to_string_lossy`) are modelled by taking the final
component's UTF-8 bytes `fname` and the file content `content` directly as
inputs; opening and metadata cannot fail in the model and the
`BadHogFilename` branch (a path with no final component) is outside it.
The remaining logic follows the source: the `FileTooLarge` check on the
length, the `HogFilenameTooLong` check (`out_filename.len() >= 13`), the
zero-padding `resize(13, 0)`, the packed header write, and the
`std::io::copy` of the content, whose byte count is returned. -/
def HogFileWriter.append_file (w : HogFileWriter) (fname content : List Nat) :
    Except HogError (HogFileWriter × Nat) :=
  let file_len := content.length
  if file_len > u32MAX then .error (.FileTooLarge file_len)
  else if 13 ≤ fname.length then .error .HogFilenameTooLong
  else
    let out_filename := fname ++ List.replicate (13 - fname.length) 0
    .ok (⟨w.file ++ (out_filename ++ u32_to_le file_len) ++ content⟩, file_len)

/-- `HogFileReader` of `src/hog.rs`: the underlying buffered file. -/
structure HogFileReader where
  file : RStream
deriving DecidableEq, Repr

/-- `HogFileReader::open` applied to the bytes of the file at the given
path (opening itself cannot fail in the model): `read_exact` 3 signature
bytes, failing with `SignatureReadFailure` on a short read, then compare
against `HOG_SIGNATURE`, failing with `InvalidSignature` on mismatch. -/
def HogFileReader.openHog (data : List Nat) : Except HogError HogFileReader :=
  if data.length < 3 then .error .SignatureReadFailure
  else if data.take 3 = HOG_SIGNATURE then .ok ⟨⟨data, 3⟩⟩
  else .error .InvalidSignature

/-- `HogRecordIter` of `src/hog.rs`: the borrowed reader stream, the
pending payload length `cur_file_len`, and the fault flag `hit_error`. -/
structure HogRecordIter where
  stream : RStream
  cur_file_len : Option Nat
  hit_error : Bool
deriving DecidableEq, Repr

/-- `HogFileReader::records`: seek the underlying stream to offset 3 (just
past the signature) and hand out a fresh iterator.  An in-memory seek
cannot fail, so the `SeekFailure` branch is unreachable and the result is
total. -/
def HogFileReader.records (r : HogFileReader) : HogRecordIter :=
  ⟨{ r.file with pos := 3 }, none, false⟩

/-- `Iterator::next` for `HogRecordIter`.  Returns the yielded item
(`none` models the Rust `None`) together with the successor iterator state
(in Rust the same object, mutated).  The lazy skip
`seek(SeekFrom::Current(length))` cannot fail on the in-memory stream, so
the branch that sets `hit_error` and yields `SeekFailure` is unreachable
here; `cur_file_len.take()` clears the pending length in every case. -/
def HogRecordIter.next (it : HogRecordIter) :
    Option (Except HogError HogRecord) × HogRecordIter :=
  if it.hit_error then (none, it)
  else
    let it1 : HogRecordIter :=
      match it.cur_file_len with
      | some length =>
        { it with stream := { it.stream with pos := it.stream.pos + length },
                  cur_file_len := none }
      | none => it
    match read_record_header it1.stream with
    | (.ok (some hdr), s') =>
      (some (.ok hdr), { it1 with stream := s', cur_file_len := some hdr.length })
    | (.ok none, s') => (none, { it1 with stream := s' })
    | (.error e, s') => (some (.error e), { it1 with stream := s' })

/-- Outcome of `HogRecordIter::copy_cur_file`: the `panic!` branch, the
`Err` return, or the successful copy with the bytes written to the
destination. -/
inductive CopyResult where
  | panicked
  | failed (e : HogError) (it : HogRecordIter)
  | copied (bytes : List Nat) (it : HogRecordIter)
deriving DecidableEq, Repr

/-- `HogRecordIter::copy_cur_file`.  `cur_file_len.take()` clears the
pending length up front; `util::copy_exactly_n` (via `copy_n`) then copies
`min (length, remaining)` bytes from the stream to the destination and
fails with an `UnexpectedEof` I/O error — wrapped as `ExtractFailure` —
when fewer than `length` bytes were available.  Destination writes (a
`Vec`/`BufWriter` in the callers) cannot fail in the model.  With no
pending length the function panics. -/
def HogRecordIter.copy_cur_file (it : HogRecordIter) : CopyResult :=
  match it.cur_file_len with
  | some length =>
    let bytes := it.stream.remaining.take length
    let it' : HogRecordIter :=
      { it with stream := { it.stream with pos := it.stream.pos + bytes.length },
                cur_file_len := none }
    if bytes.length = length then .copied bytes it'
    else .failed .ExtractFailure it'
  | none => .panicked

/-- The encoded archive segment `append_file` produces for one source file
(header with zero-padded name and LE length, then the payload). -/
def encodeFile (fc : List Nat × List Nat) : List Nat :=
  (fc.1 ++ List.replicate (13 - fc.1.length) 0) ++ u32_to_le fc.2.length ++ fc.2

/-- Concatenation of the encoded segments of a list of source files. -/
def encodeFiles : List (List Nat × List Nat) → List Nat
  | [] => []
  | fc :: rest => encodeFile fc ++ encodeFiles rest

/-- `append_file` folded over a list of (filename bytes, content) pairs,
stopping at the first error — the batch loop of archive creation. -/
def appendAll (w : HogFileWriter) : List (List Nat × List Nat) → Except HogError HogFileWriter
  | [] => .ok w
  | fc :: rest =>
    match w.append_file fc.1 fc.2 with
    | .ok (w', _) => appendAll w' rest
    | .error e => .error e

/-- `HogFileWriter::create` followed by `append_file` for each input, in
order. -/
def writeAll (files : List (List Nat × List Nat)) : Except HogError HogFileWriter :=
  appendAll HogFileWriter.create files

/-- Drive the iterator with `next()` followed by `copy_cur_file` for each
yielded record, collecting (decoded filename bytes, payload bytes) pairs in
order.  Fuel-indexed; `none` means fuel ran out or `copy_cur_file`
panicked (neither occurs in the theorems below). -/
def extractLoop (it : HogRecordIter) : Nat → Option (Except HogError (List (List Nat × List Nat)))
  | 0 => none
  | fuel + 1 =>
    match HogRecordIter.next it with
    | (none, _) => some (.ok [])
    | (some (.error e), _) => some (.error e)
    | (some (.ok hdr), it') =>
      match HogRecordIter.copy_cur_file it' with
      | .panicked => none
      | .failed e _ => some (.error e)
      | .copied bytes it'' =>
        match extractLoop it'' fuel with
        | some (.ok rest) => some (.ok ((hdr.filename, bytes) :: rest))
        | other => other

/-- Outcome of creating a destination file, abstracting the host
filesystem: creation succeeds, the file already exists, or creation fails
for some other reason.  `File::create` (overwrite mode) succeeds on `ok`
and on `alreadyExists` (it truncates) and fails otherwise;
`OpenOptions::create_new` succeeds only on `ok`. -/
inductive CreateOutcome where
  | ok
  | alreadyExists
  | failOther
deriving DecidableEq, Repr

/-- `HogExtractInfo` of `src/main.rs`: the extraction summary counters. -/
structure HogExtractInfo where
  files_processed : Nat
  files_extracted : Nat
  files_skipped : Nat
  bytes_extracted : Nat
deriving DecidableEq, Repr

/-- `HogExtractInfo::new`. -/
def HogExtractInfo.new : HogExtractInfo := ⟨0, 0, 0, 0⟩

/-- The record loop of `hog_dump` of `src/main.rs`, parameterized by the
filesystem behaviour `fs` (the creation outcome for each destination
filename).  Mirrors the source: on a yielded record, increment
`files_processed`, then create the output file — in overwrite mode via
`File::create`, whose failure is propagated with `?` out of `hog_dump` as
`OpenOutputFailure`; in no-overwrite mode via `create_new`, where
`AlreadyExists` counts the record as skipped and `continue`s (leaving the
payload pending, to be lazily skipped by the following `next()`) and any
other failure is returned as `OpenOutputFailure` — then
`iter.copy_cur_file(&mut out_f)?` and the `bytes_extracted` /
`files_extracted` updates.  A yielded error is returned; `None` ends the
loop returning the summary.  Fuel-indexed; `none` is fuel exhaustion or
the unreachable `copy_cur_file` panic. -/
def hog_dump_loop (fs : List Nat → CreateOutcome) (overwrite : Bool)
    (it : HogRecordIter) (info : HogExtractInfo) :
    Nat → Option (Except HogError HogExtractInfo)
  | 0 => none
  | fuel + 1 =>
    match HogRecordIter.next it with
    | (none, _) => some (.ok info)
    | (some (.error e), _) => some (.error e)
    | (some (.ok hdr), it') =>
      let info1 := { info with files_processed := info.files_processed + 1 }
      let out_f : Except HogError Bool :=
        if overwrite then
          match fs hdr.filename with
          | .failOther => .error .OpenOutputFailure
          | _ => .ok true
        else
          match fs hdr.filename with
          | .ok => .ok true
          | .alreadyExists => .ok false
          | .failOther => .error .OpenOutputFailure
      match out_f with
      | .error e => some (.error e)
      | .ok false =>
        hog_dump_loop fs overwrite it'
          { info1 with files_skipped := info1.files_skipped + 1 } fuel
      | .ok true =>
        match HogRecordIter.copy_cur_file it' with
        | .panicked => none
        | .failed e _ => some (.error e)
        | .copied _ it'' =>
          hog_dump_loop fs overwrite it''
            { info1 with bytes_extracted := info1.bytes_extracted + hdr.length,
                         files_extracted := info1.files_extracted + 1 } fuel

/-- `hog_dump` of `src/main.rs` applied to the archive bytes: open the
reader, obtain the record iterator, and run the extraction loop on a fresh
summary. -/
def hog_dump (data : List Nat) (overwrite : Bool) (fs : List Nat → CreateOutcome)
    (fuel : Nat) : Option (Except HogError HogExtractInfo) :=
  match HogFileReader.openHog data with
  | .error e => some (.error e)
  | .ok r => hog_dump_loop fs overwrite r.records HogExtractInfo.new fuel

/-- Drive the iterator with `next()` only (never copying payloads),
collecting every yielded item until the iterator is exhausted — the pure
listing traversal.  Fuel-indexed. -/
def traverseItems (it : HogRecordIter) : Nat → List (Except HogError HogRecord)
  | 0 => []
  | fuel + 1 =>
    match HogRecordIter.next it with
    | (none, _) => []
    | (some item, it') => item :: traverseItems it' fuel

/-- Archive used to refute C2: a record whose filename field starts with
the invalid UTF-8 byte 0xFF (payload length 0), followed by a well-formed
record named "A" (payload length 0). -/
def c2data : List Nat :=
  HOG_SIGNATURE ++ ([255] ++ List.replicate 12 0) ++ [0, 0, 0, 0] ++
    ([65] ++ List.replicate 12 0) ++ [0, 0, 0, 0]

/-- Archive used for C3: two records, "A" and "B", each with a 1-byte
payload. -/
def c3data : List Nat :=
  HOG_SIGNATURE ++ (([65] ++ List.replicate 12 0) ++ [1, 0, 0, 0] ++ [7]) ++
    (([66] ++ List.replicate 12 0) ++ [1, 0, 0, 0] ++ [8])

/-- Filesystem behaviour for C3: creating "A" fails, everything else
succeeds. -/
def c3fs : List Nat → CreateOutcome := fun name =>
  if name = [65] then .failOther else .ok

/-- Archive truncated to the signature plus 10 header bytes (C5). -/
def c5data : List Nat := HOG_SIGNATURE ++ [1, 2, 3, 4, 5, 6, 7, 8, 9, 10]

/-- Realizability of one source file as input to `append_file` und the
round trip: the final path component has at most 12 bytes, contains no NUL
byte and is valid UTF-8 (both guaranteed for the name of a real openable
file, which reaches the writer through `to_string_lossy`), and the content
fits the 4-byte length field. -/
abbrev goodFile (fc : List Nat × List Nat) : Prop :=
  fc.1.length ≤ 12 ∧ 0 ∉ fc.1 ∧ utf8Valid fc.1 = true ∧ fc.2.length ≤ u32MAX

lemma next_of_faulted (it : HogRecordIter) (h : it.hit_error = true) :
    HogRecordIter.next it = (none, it) := by
  unfold HogRecordIter.next
  simp [h]

lemma next_no_skip (s : RStream) :
    HogRecordIter.next ⟨s, none, false⟩ =
      (match read_record_header s with
       | (.ok (some hdr), t) => (some (.ok hdr), ⟨t, some hdr.length, false⟩)
       | (.ok none, t) => (none, ⟨t, none, false⟩)
       | (.error e, t) => (some (.error e), ⟨t, none, false⟩)) := by
  unfold HogRecordIter.next
  rcases hr : read_record_header s with ⟨res, t⟩
  rcases res with res | e
  · rcases res with _ | hdr <;> simp [hr]
  · simp [hr]

lemma next_skip_eq (s : RStream) (n : Nat) :
    HogRecordIter.next ⟨s, some n, false⟩ =
      HogRecordIter.next ⟨⟨s.data, s.pos + n⟩, none, false⟩ := rfl

lemma next_preserves_hit_error (it : HogRecordIter) :
    (HogRecordIter.next it).2.hit_error = it.hit_error := by
  by_cases hhit : it.hit_error = true
  · simp [next_of_faulted it hhit]
  · have hfe : it.hit_error = false := by simpa using hhit
    unfold HogRecordIter.next
    rw [if_neg hhit]
    cases hcur : it.cur_file_len <;>
      · simp only [hcur]
        split <;> simp [hfe]

lemma next_yields_ok_pending (it it' : HogRecordIter) (hdr : HogRecord)
    (h : HogRecordIter.next it = (some (.ok hdr), it')) :
    it'.cur_file_len = some hdr.length := by
  unfold HogRecordIter.next at h
  by_cases hhit : it.hit_error = true
  · simp [hhit] at h
  · rw [if_neg hhit] at h
    cases hcur : it.cur_file_len <;>
      · simp only [hcur] at h
        split at h
        · injection h with h1 h2
          injection h1 with h1
          injection h1 with h1
          rw [← h2, ← h1]
        · injection h with h1 h2
          exact Option.noConfusion h1
        · injection h with h1 h2
          injection h1 with h1
          exact Except.noConfusion h1

/-- C5: the end-of-stream boundary of `read_record_header`: zero bytes
available at the start of the attempt is a clean end of sequence
(`Ok(None)`, stream untouched); more than zero but fewer than 17 available
bytes is `UnexpectedEof`; concretely, an archive truncated to the
signature plus 10 header bytes yields `UnexpectedEof` on traversal rather
than a silent empty result. -/
theorem c5_header_eof_boundary (s : RStream) :
    (s.remaining.length = 0 → read_record_header s = (.ok none, s))
    ∧ (0 < s.remaining.length → s.remaining.length < 17 →
        (read_record_header s).1 = .error .UnexpectedEof)
    ∧ HogFileReader.openHog c5data = .ok ⟨⟨c5data, 3⟩⟩
    ∧ (HogRecordIter.next (HogFileReader.records ⟨⟨c5data, 3⟩⟩)).1 =
        some (.error .UnexpectedEof) := by
  refine ⟨?_, ?_, by decide, by decide⟩
  · intro h
    simp [read_record_header, h]
  · intro h1 h2
    have h0 : ¬ s.remaining.length = 0 := by omega
    simp [read_record_header, HDR_LEN, h0, h2]

/-- Witness for C5 at a concrete stream holding 5 bytes (partial header)
and at one holding 0 bytes. -/
theorem c5_header_eof_boundary_witness :
    (0 < (RStream.mk [1, 2, 3, 4, 5] 0).remaining.length
      ∧ (RStream.mk [1, 2, 3, 4, 5] 0).remaining.length < 17
      ∧ (read_record_header ⟨[1, 2, 3, 4, 5], 0⟩).1 = .error .UnexpectedEof)
    ∧ ((RStream.mk [1, 2, 3] 3).remaining.length = 0
      ∧ read_record_header ⟨[1, 2, 3], 3⟩ = (.ok none, ⟨[1, 2, 3], 3⟩)) :=
  ⟨⟨by decide, by decide,
    (c5_header_eof_boundary ⟨[1, 2, 3, 4, 5], 0⟩).2.1 (by decide) (by decide)⟩,
   ⟨by decide, (c5_header_eof_boundary ⟨[1, 2, 3], 3⟩).1 (by decide)⟩⟩

/-- C7: the filename length boundary of `append_file` (with the input file
within the 4-byte size range, so that the earlier `FileTooLarge` check
passes): it fails with `HogFilenameTooLong` exactly when the encoded final
path component occupies 13 or more bytes, and a component of at most 12
bytes passes the check and is right-padded with zero bytes to exactly 13
in the written header. -/
theorem c7_filename_boundary (w : HogFileWriter) (fname content : List Nat)
    (h : content.length ≤ u32MAX) :
    (w.append_file fname content = .error .HogFilenameTooLong ↔ 13 ≤ fname.length)
    ∧ (fname.length ≤ 12 →
        w.append_file fname content =
          .ok (⟨w.file ++ ((fname ++ List.replicate (13 - fname.length) 0) ++
              u32_to_le content.length) ++ content⟩, content.length)
          ∧ (fname ++ List.replicate (13 - fname.length) 0).length = 13) := by
  unfold HogFileWriter.append_file
  have hnot : ¬ content.length > u32MAX := by omega
  constructor
  · by_cases h13 : 13 ≤ fname.length
    · simp [hnot, h13]
    · simp [hnot, h13]
  · intro h12
    have h13 : ¬ 13 ≤ fname.length := by omega
    refine ⟨by simp [hnot, h13], ?_⟩
    simp
    omega

/-- Witness for C7 at a concrete 13-byte name, which fails with
`HogFilenameTooLong`. -/
theorem c7_filename_boundary_witness :
    ([104, 105] : List Nat).length ≤ u32MAX
    ∧ HogFileWriter.create.append_file [1, 2, 3, 4, 5, 6, 7, 8, 9, 10, 11, 12, 13]
        [104, 105] = .error .HogFilenameTooLong :=
  ⟨by decide,
   ((c7_filename_boundary HogFileWriter.create
       [1, 2, 3, 4, 5, 6, 7, 8, 9, 10, 11, 12, 13] [104, 105] (by decide)).1).mpr
     (by decide)⟩

/-- C9: `copy_cur_file` without a pending payload length panics (the
programming-contract violation is an abort, not a recoverable error), and
immediately after `next()` yields a record the pending length is set, so
the panic branch is unreachable for a freshly yielded record. -/
theorem c9_copy_precondition :
    (∀ it : HogRecordIter, it.cur_file_len = none →
      HogRecordIter.copy_cur_file it = .panicked)
    ∧ (∀ (it it' : HogRecordIter) (hdr : HogRecord),
        HogRecordIter.next it = (some (.ok hdr), it') →
        HogRecordIter.copy_cur_file it' ≠ .panicked) := by
  constructor
  · intro it h
    unfold HogRecordIter.copy_cur_file
    simp [h]
  · intro it it' hdr h
    have hcur := next_yields_ok_pending it it' hdr h
    unfold HogRecordIter.copy_cur_file
    rw [hcur]
    by_cases hlen : (it'.stream.remaining.take hdr.length).length = hdr.length
    · simp only [hlen, if_pos]
      exact fun hh => CopyResult.noConfusion hh
    · simp only [hlen, if_neg, if_false]
      exact fun hh => CopyResult.noConfusion hh

/-- Witness for C9: a cursor with no pending record panics, and the cursor
obtained from yielding the single record of a tiny archive does not. -/
theorem c9_copy_precondition_witness :
    (HogRecordIter.copy_cur_file ⟨⟨[], 0⟩, none, false⟩ = .panicked)
    ∧ HogRecordIter.copy_cur_file
        ⟨⟨HOG_SIGNATURE ++ [65, 0, 0, 0, 0, 0, 0, 0, 0, 0, 0, 0, 0, 1, 0, 0, 0, 9], 20⟩,
          some 1, false⟩ ≠ .panicked :=
  ⟨c9_copy_precondition.1 ⟨⟨[], 0⟩, none, false⟩ rfl,
   c9_copy_precondition.2
     ⟨⟨HOG_SIGNATURE ++ [65, 0, 0, 0, 0, 0, 0, 0, 0, 0, 0, 0, 0, 1, 0, 0, 0, 9], 3⟩,
       none, false⟩
     ⟨⟨HOG_SIGNATURE ++ [65, 0, 0, 0, 0, 0, 0, 0, 0, 0, 0, 0, 0, 1, 0, 0, 0, 9], 20⟩,
       some 1, false⟩
     ⟨[65], 1⟩ (by decide)⟩

/-- C2 counterexample: on `c2data`, the first `next()` yields
`Err(InvalidFilename)`, yet the immediately following `next()` yields
another record rather than nothing — the cursor is not faulted by a header
decode error (only the lazy-skip seek failure sets `hit_error`). -/
theorem c2_counterexample :
    HogFileReader.openHog c2data = .ok ⟨⟨c2data, 3⟩⟩
    ∧ (HogRecordIter.next (HogFileReader.records ⟨⟨c2data, 3⟩⟩)).1 =
        some (.error .InvalidFilename)
    ∧ (HogRecordIter.next
        (HogRecordIter.next (HogFileReader.records ⟨⟨c2data, 3⟩⟩)).2).1 =
        some (.ok ⟨[65], 0⟩) := by
  refine ⟨by decide, by decide, by decide⟩

/-- C2 (amended): once the `hit_error` flag is set the cursor is
permanently exhausted — `next()` yields nothing and leaves the state
unchanged — but `next()` itself never sets the flag in the in-memory model
(only a lazy-skip seek failure would; header read/decode errors leave the
cursor un-faulted, as the counterexample shows). -/
theorem c2_faulted_absorbing (it : HogRecordIter) :
    (it.hit_error = true → HogRecordIter.next it = (none, it))
    ∧ (HogRecordIter.next it).2.hit_error = it.hit_error :=
  ⟨next_of_faulted it, next_preserves_hit_error it⟩

/-- Witness for C2 (amended) at a concretely faulted cursor. -/
theorem c2_faulted_absorbing_witness :
    HogRecordIter.next ⟨⟨[1, 2, 3], 0⟩, none, true⟩ = (none, ⟨⟨[1, 2, 3], 0⟩, none, true⟩) :=
  (c2_faulted_absorbing ⟨⟨[1, 2, 3], 0⟩, none, true⟩).1 rfl

/-- C4: with a pending payload length `n` set (and the cursor not
faulted), `next()` behaves exactly as `next()` on the cursor whose stream
position has been advanced by `n` with the pending length cleared — the
lazy skip is a pure forward seek of `n` bytes before the header read.
With no pending length, `next()` reads the header directly at the current
position.  A successful `copy_cur_file` clears the pending length (and
advances the position past the payload), so the immediately following
`next()` performs no skip. -/
theorem c4_lazy_skip_and_clear (s : RStream) (n : Nat) :
    HogRecordIter.next ⟨s, some n, false⟩ =
      HogRecordIter.next ⟨⟨s.data, s.pos + n⟩, none, false⟩
    ∧ (∀ t : RStream, HogRecordIter.next ⟨t, none, false⟩ =
        (match read_record_header t with
         | (.ok (some hdr), t') => (some (.ok hdr), ⟨t', some hdr.length, false⟩)
         | (.ok none, t') => (none, ⟨t', none, false⟩)
         | (.error e, t') => (some (.error e), ⟨t', none, false⟩)))
    ∧ (∀ (it : HogRecordIter) (b : List Nat) (it'' : HogRecordIter),
        HogRecordIter.copy_cur_file it = .copied b it'' →
        it''.cur_file_len = none
          ∧ it''.stream = ⟨it.stream.data, it.stream.pos + b.length⟩) := by
  refine ⟨next_skip_eq s n, next_no_skip, ?_⟩
  intro it b it'' h
  unfold HogRecordIter.copy_cur_file at h
  cases hcur : it.cur_file_len with
  | none => simp [hcur] at h
  | some length =>
    simp only [hcur] at h
    split at h
    · injection h with h1 h2
      subst h2
      exact ⟨rfl, by rw [← h1]⟩
    · exact CopyResult.noConfusion h

/-- Witness for C4: the copy-clears-pending conjunct at a concrete cursor
holding a 2-byte payload. -/
theorem c4_lazy_skip_and_clear_witness :
    HogRecordIter.copy_cur_file ⟨⟨[1, 2, 3, 4], 1⟩, some 2, false⟩ =
      .copied [2, 3] ⟨⟨[1, 2, 3, 4], 3⟩, none, false⟩
    ∧ (RStream.mk [1, 2, 3, 4] 3 : RStream).pos = 3 ∧
      (⟨⟨[1, 2, 3, 4], 3⟩, none, false⟩ : HogRecordIter).cur_file_len = none :=
  ⟨by decide,
   rfl,
   ((c4_lazy_skip_and_clear ⟨[1, 2, 3, 4], 1⟩ 2).2.2
     ⟨⟨[1, 2, 3, 4], 1⟩, some 2, false⟩ [2, 3] ⟨⟨[1, 2, 3, 4], 3⟩, none, false⟩
     (by decide)).1⟩

/-- C10: when `copy_cur_file` is called with a pending length larger than
the bytes remaining, it fails with `ExtractFailure`, yet the pending
length is already cleared (the `take()` happens before the copy) and the
stream is left where the failed copy stopped (everything remaining was
consumed); the following `next()` therefore performs no skip and reads the
next header at exactly that position. -/
theorem c10_no_atomicity_on_failure (it : HogRecordIter) (n : Nat)
    (hcur : it.cur_file_len = some n) (hshort : it.stream.remaining.length < n) :
    ∃ it', HogRecordIter.copy_cur_file it = .failed .ExtractFailure it'
      ∧ it'.cur_file_len = none
      ∧ it'.stream.data = it.stream.data
      ∧ it'.stream.pos = it.stream.pos + it.stream.remaining.length
      ∧ it'.hit_error = it.hit_error
      ∧ (it.hit_error = false →
          HogRecordIter.next it' =
            (match read_record_header it'.stream with
             | (.ok (some hdr), t') => (some (.ok hdr), ⟨t', some hdr.length, false⟩)
             | (.ok none, t') => (none, ⟨t', none, false⟩)
             | (.error e, t') => (some (.error e), ⟨t', none, false⟩))) := by
  have htake : (it.stream.remaining.take n).length = it.stream.remaining.length := by
    simp [List.length_take]
    omega
  have hne : ¬ (it.stream.remaining.take n).length = n := by omega
  refine ⟨⟨⟨it.stream.data, it.stream.pos + it.stream.remaining.length⟩, none, it.hit_error⟩,
    ?_, rfl, rfl, rfl, rfl, ?_⟩
  · unfold HogRecordIter.copy_cur_file
    simp only [hcur, hne, if_false]
    rw [htake]
  · intro hfe
    rw [hfe]
    exact next_no_skip _

/-- Witness for C10: a cursor claiming a 5-byte pending payload over a
stream with only 2 bytes left. -/
theorem c10_no_atomicity_on_failure_witness :
    (HogRecordIter.cur_file_len ⟨⟨[9, 9], 0⟩, some 5, false⟩ = some 5)
    ∧ (RStream.remaining ⟨[9, 9], 0⟩).length < 5
    ∧ ∃ it', HogRecordIter.copy_cur_file ⟨⟨[9, 9], 0⟩, some 5, false⟩ =
        .failed .ExtractFailure it' ∧ it'.cur_file_len = none :=
  ⟨rfl, by decide,
   match c10_no_atomicity_on_failure ⟨⟨[9, 9], 0⟩, some 5, false⟩ 5 rfl (by decide) with
   | ⟨it', h1, h2, _⟩ => ⟨it', h1, h2⟩⟩

/-- C8: `records()` repositions the underlying stream to offset 3, just
past the signature, regardless of where a previous traversal left it; so
traversing the iterators obtained from two `records()` calls on the same
open reader (same data, any intermediate positions) yields identical
sequences of items. -/
theorem c8_idempotent_traversal (r : HogFileReader) :
    HogFileReader.records r = ⟨⟨r.file.data, 3⟩, none, false⟩
    ∧ (∀ (s' : RStream) (fuel : Nat), s'.data = r.file.data →
        traverseItems (HogFileReader.records ⟨s'⟩) fuel =
          traverseItems (HogFileReader.records r) fuel) := by
  constructor
  · rfl
  · intro s' fuel h
    show traverseItems ⟨⟨s'.data, 3⟩, none, false⟩ fuel =
      traverseItems ⟨⟨r.file.data, 3⟩, none, false⟩ fuel
    rw [h]

/-- Witness for C8: a reader on a one-record archive whose stream was left
at the end by a full traversal; a second `records()` yields the same
sequence. -/
theorem c8_idempotent_traversal_witness :
    (RStream.mk (HOG_SIGNATURE ++ [65, 0, 0, 0, 0, 0, 0, 0, 0, 0, 0, 0, 0, 1, 0, 0, 0, 9]) 21).data =
      (HogFileReader.mk ⟨HOG_SIGNATURE ++ [65, 0, 0, 0, 0, 0, 0, 0, 0, 0, 0, 0, 0, 1, 0, 0, 0, 9], 3⟩).file.data
    ∧ traverseItems
        (HogFileReader.records
          ⟨⟨HOG_SIGNATURE ++ [65, 0, 0, 0, 0, 0, 0, 0, 0, 0, 0, 0, 0, 1, 0, 0, 0, 9], 21⟩⟩) 3 =
      traverseItems
        (HogFileReader.records
          ⟨⟨HOG_SIGNATURE ++ [65, 0, 0, 0, 0, 0, 0, 0, 0, 0, 0, 0, 0, 1, 0, 0, 0, 9], 3⟩⟩) 3 :=
  ⟨rfl,
   (c8_idempotent_traversal
     ⟨⟨HOG_SIGNATURE ++ [65, 0, 0, 0, 0, 0, 0, 0, 0, 0, 0, 0, 0, 1, 0, 0, 0, 9], 3⟩⟩).2
     ⟨HOG_SIGNATURE ++ [65, 0, 0, 0, 0, 0, 0, 0, 0, 0, 0, 0, 0, 1, 0, 0, 0, 9], 21⟩ 3 rfl⟩

/-- C3 counterexample: on the two-record archive `c3data`, with a
filesystem on which creating the first destination file fails, overwrite
mode aborts the whole archive traversal with `OpenOutputFailure` — it does
not continue with the second record.  With an unconstrained filesystem the
same archive extracts both records, so the early termination is caused by
the creation failure alone. -/
theorem c3_counterexample :
    hog_dump c3data true c3fs 3 = some (.error .OpenOutputFailure)
    ∧ hog_dump c3data true (fun _ => .ok) 3 =
        some (.ok ⟨2, 2, 0, 2⟩) := by
  refine ⟨by decide, by decide⟩

/-- C3 (amended): in overwrite mode a failure to create the destination
file of the record just yielded makes the extraction loop return
`Err(OpenOutputFailure)` for the whole archive at once (the `?` on
`File::create` propagates out of `hog_dump`); no further records of that
archive are processed.  Error isolation exists only across archives, in
the caller `hog_dump_files`. -/
theorem c3_overwrite_creation_failure_aborts (fs : List Nat → CreateOutcome)
    (it it' : HogRecordIter) (info : HogExtractInfo) (fuel : Nat) (hdr : HogRecord)
    (hnext : HogRecordIter.next it = (some (.ok hdr), it'))
    (hfs : fs hdr.filename = .failOther) :
    hog_dump_loop fs true it info (fuel + 1) = some (.error .OpenOutputFailure) := by
  unfold hog_dump_loop
  rw [hnext]
  simp [hfs]

/-- Witness for C3 (amended): the first record of `c3data` under `c3fs`. -/
theorem c3_overwrite_creation_failure_aborts_witness :
    HogRecordIter.next (HogFileReader.records ⟨⟨c3data, 3⟩⟩) =
      (some (.ok ⟨[65], 1⟩), ⟨⟨c3data, 20⟩, some 1, false⟩)
    ∧ c3fs [65] = .failOther
    ∧ hog_dump_loop c3fs true (HogFileReader.records ⟨⟨c3data, 3⟩⟩)
        HogExtractInfo.new 3 = some (.error .OpenOutputFailure) :=
  ⟨by decide, by decide,
   c3_overwrite_creation_failure_aborts c3fs (HogFileReader.records ⟨⟨c3data, 3⟩⟩)
     ⟨⟨c3data, 20⟩, some 1, false⟩ HogExtractInfo.new 2 ⟨[65], 1⟩ (by decide) (by decide)⟩

lemma getD_drop (l : List Nat) (n i d : Nat) :
    (l.drop n).getD i d = l.getD (n + i) d := by
  simp [List.getD, List.getElem?_drop]

lemma u32_from_le_drop (b : List Nat) :
    u32_from_le (b.drop 13) =
      b.getD 13 0 + 256 * b.getD 14 0 + 65536 * b.getD 15 0 + 16777216 * b.getD 16 0 := by
  simp only [u32_from_le, getD_drop]
  norm_num
  ring

lemma filename_part_eq_takeWhile (l : List Nat) :
    filename_part l = l.takeWhile (fun x => x != 0) := by
  induction l with
  | nil => rfl
  | cons b rest ih =>
    by_cases hb : b = 0
    · simp [filename_part, List.takeWhile_cons, hb]
    · simp [filename_part, List.takeWhile_cons, hb, ih]

lemma filename_part_of_not_mem (l : List Nat) (h : 0 ∉ l) : filename_part l = l := by
  induction l with
  | nil => rfl
  | cons b rest ih =>
    rw [List.mem_cons, not_or] at h
    have hb : ¬ b = 0 := fun hh => h.1 hh.symm
    simp [filename_part, hb, ih h.2]

lemma filename_part_append_zeros (f : List Nat) (k : Nat) (h : 0 ∉ f) :
    filename_part (f ++ List.replicate k 0) = f := by
  induction f with
  | nil =>
    cases k with
    | zero => rfl
    | succ k' => simp [filename_part, List.replicate_succ]
  | cons b rest ih =>
    rw [List.mem_cons, not_or] at h
    have hb : ¬ b = 0 := fun hh => h.1 hh.symm
    simp only [List.cons_append, filename_part, if_neg hb]
    show b :: filename_part (rest ++ List.replicate k 0) = b :: rest
    rw [ih h.2]

lemma filename_part_first_zero (l : List Nat) (i : Nat) (hi : i < l.length)
    (h0 : l.getD i 1 = 0) (hprev : ∀ j, j < i → l.getD j 1 ≠ 0) :
    filename_part l = l.take i := by
  induction l generalizing i with
  | nil => simp at hi
  | cons b rest ih =>
    cases i with
    | zero =>
      rw [List.getD_cons_zero] at h0
      simp [filename_part, h0]
    | succ i' =>
      have hb : b ≠ 0 := by
        have := hprev 0 (Nat.succ_pos i')
        rwa [List.getD_cons_zero] at this
      rw [List.getD_cons_succ] at h0
      have hi' : i' < rest.length := by simpa using hi
      have hprev' : ∀ j, j < i' → rest.getD j 1 ≠ 0 := fun j hj => by
        have := hprev (j + 1) (by omega)
        rwa [List.getD_cons_succ] at this
      simp only [filename_part, if_neg hb, List.take_succ_cons]
      rw [ih i' hi' h0 hprev']

lemma u32_roundtrip (n : Nat) (h : n ≤ u32MAX) : u32_from_le (u32_to_le n) = n := by
  unfold u32MAX at h
  simp only [u32_from_le, u32_to_le, List.getD_cons_zero, List.getD_cons_succ]
  omega

/-- C6: decoding a 17-byte raw header splits the 13-byte filename field at
the first zero byte (all 13 bytes when none is zero, the strict prefix
before the first zero otherwise — trailing bytes are discarded), fails
with `InvalidFilename` exactly when the retained bytes are not valid
UTF-8, and on success reads the length as the unsigned little-endian value
of the last 4 bytes. -/
theorem c6_header_decoding (b : List Nat) (h : b.length = 17) :
    (rawOfBytes b).filename = b.take 13
    ∧ (rawOfBytes b).length_le = b.drop 13
    ∧ filename_part (b.take 13) = (b.take 13).takeWhile (fun x => x != 0)
    ∧ (0 ∉ b.take 13 → filename_part (b.take 13) = b.take 13)
    ∧ (∀ i, i < 13 → (b.take 13).getD i 1 = 0 →
        (∀ j, j < i → (b.take 13).getD j 1 ≠ 0) →
        filename_part (b.take 13) = (b.take 13).take i)
    ∧ (hogRecordOfRaw (rawOfBytes b) = .error .InvalidFilename ↔
        utf8Valid (filename_part (b.take 13)) = false)
    ∧ (∀ hdr, hogRecordOfRaw (rawOfBytes b) = .ok hdr →
        hdr.filename = filename_part (b.take 13)
        ∧ hdr.length = b.getD 13 0 + 256 * b.getD 14 0 +
            65536 * b.getD 15 0 + 16777216 * b.getD 16 0) := by
  refine ⟨rfl, rfl, filename_part_eq_takeWhile _, filename_part_of_not_mem _, ?_, ?_, ?_⟩
  · intro i hi13 h0 hprev
    have hlen : (b.take 13).length = 13 := by simp [List.length_take, h]
    exact filename_part_first_zero _ i (by omega) h0 hprev
  · unfold hogRecordOfRaw RawHogRecord.filename_as_str
    by_cases hv : utf8Valid (filename_part (b.take 13)) = true
    · simp [rawOfBytes, hv]
    · have hv' : utf8Valid (filename_part (b.take 13)) = false := by simpa using hv
      simp [rawOfBytes, hv']
  · intro hdr hh
    unfold hogRecordOfRaw RawHogRecord.filename_as_str at hh
    by_cases hv : utf8Valid (filename_part (b.take 13)) = true
    · simp only [rawOfBytes, hv, if_pos] at hh
      injection hh with hh
      rw [← hh]
      exact ⟨rfl, u32_from_le_drop b⟩
    · have hv' : utf8Valid (filename_part (b.take 13)) = false := by simpa using hv
      simp [rawOfBytes, hv'] at hh

/-- Witness for C6 at a concrete header: filename field "AB" padded with
zeros, length field 513 (bytes 1, 2, 0, 0). -/
theorem c6_header_decoding_witness :
    ([65, 66, 0, 0, 0, 0, 0, 0, 0, 0, 0, 0, 0, 1, 2, 0, 0] : List Nat).length = 17
    ∧ (hogRecordOfRaw (rawOfBytes [65, 66, 0, 0, 0, 0, 0, 0, 0, 0, 0, 0, 0, 1, 2, 0, 0]) =
          .error .InvalidFilename ↔
        utf8Valid (filename_part
          (([65, 66, 0, 0, 0, 0, 0, 0, 0, 0, 0, 0, 0, 1, 2, 0, 0] : List Nat).take 13)) = false) :=
  ⟨by decide, (c6_header_decoding _ (by decide)).2.2.2.2.2.1⟩

lemma copy_at (data : List Nat) (pos : Nat) (c tail : List Nat)
    (hdrop : data.drop pos = c ++ tail) :
    HogRecordIter.copy_cur_file ⟨⟨data, pos⟩, some c.length, false⟩ =
      .copied c ⟨⟨data, pos + c.length⟩, none, false⟩
    ∧ data.drop (pos + c.length) = tail := by
  have hrem : RStream.remaining ⟨data, pos⟩ = c ++ tail := hdrop
  have htake : (c ++ tail).take c.length = c := List.take_left c tail
  have hdrop2 : data.drop (pos + c.length) = tail := by
    rw [← List.drop_drop, hdrop]
    exact List.drop_left c tail
  constructor
  · unfold HogRecordIter.copy_cur_file
    simp [hrem, htake]
  · exact hdrop2

lemma round_step (data : List Nat) (pos : Nat) (f c tail : List Nat)
    (hf12 : f.length ≤ 12) (hf0 : 0 ∉ f) (hfu : utf8Valid f = true)
    (hc : c.length ≤ u32MAX)
    (hdrop : data.drop pos = encodeFile (f, c) ++ tail) :
    read_record_header ⟨data, pos⟩ = (.ok (some ⟨f, c.length⟩), ⟨data, pos + 17⟩)
    ∧ data.drop (pos + 17) = c ++ tail := by
  have hpad : (f ++ List.replicate (13 - f.length) 0).length = 13 := by
    simp
    omega
  have hle : (u32_to_le c.length).length = 4 := rfl
  have h17 : ((f ++ List.replicate (13 - f.length) 0) ++ u32_to_le c.length).length = 17 := by
    rw [List.length_append, hpad, hle]
  have hrem : RStream.remaining ⟨data, pos⟩ =
      ((f ++ List.replicate (13 - f.length) 0) ++ u32_to_le c.length) ++ (c ++ tail) := by
    show data.drop pos = _
    rw [hdrop]
    simp [encodeFile, List.append_assoc]
  have htake : (((f ++ List.replicate (13 - f.length) 0) ++ u32_to_le c.length) ++
      (c ++ tail)).take 17 = (f ++ List.replicate (13 - f.length) 0) ++ u32_to_le c.length :=
    List.take_left' h17
  have hraw : rawOfBytes ((f ++ List.replicate (13 - f.length) 0) ++ u32_to_le c.length) =
      ⟨f ++ List.replicate (13 - f.length) 0, u32_to_le c.length⟩ := by
    unfold rawOfBytes
    rw [List.take_left' hpad, List.drop_left' hpad]
  have hdec : hogRecordOfRaw (rawOfBytes ((f ++ List.replicate (13 - f.length) 0) ++
      u32_to_le c.length)) = .ok ⟨f, c.length⟩ := by
    rw [hraw]
    unfold hogRecordOfRaw RawHogRecord.filename_as_str
    simp only [filename_part_append_zeros f _ hf0, hfu, if_pos]
    rw [u32_roundtrip c.length hc]
  have hdrop17 : data.drop (pos + 17) = c ++ tail := by
    have : RStream.remaining ⟨data, pos⟩ = data.drop pos := rfl
    rw [← List.drop_drop, ← this, hrem]
    exact List.drop_left' h17
  refine ⟨?_, hdrop17⟩
  unfold read_record_header
  simp only [hrem, HDR_LEN]
  rw [if_neg (by rw [List.length_append, h17]; omega),
    if_neg (by rw [List.length_append, h17]; omega), htake, hdec]

lemma extractLoop_done (it it2 : HogRecordIter) (fuel : Nat)
    (hnext : HogRecordIter.next it = (none, it2)) :
    extractLoop it (fuel + 1) = some (.ok []) := by
  unfold extractLoop
  simp only [hnext]

lemma extractLoop_step (it it' it'' : HogRecordIter) (hdr : HogRecord) (b : List Nat)
    (fuel : Nat) (res : List (List Nat × List Nat))
    (hnext : HogRecordIter.next it = (some (.ok hdr), it'))
    (hcopy : HogRecordIter.copy_cur_file it' = .copied b it'')
    (hres : extractLoop it'' fuel = some (.ok res)) :
    extractLoop it (fuel + 1) = some (.ok ((hdr.filename, b) :: res)) := by
  unfold extractLoop
  simp only [hnext, hcopy, hres]

lemma extract_of_encoded (files : List (List Nat × List Nat)) (data : List Nat) :
    ∀ pos : Nat, (∀ fc ∈ files, goodFile fc) → data.drop pos = encodeFiles files →
    extractLoop ⟨⟨data, pos⟩, none, false⟩ (files.length + 1) = some (.ok files) := by
  induction files with
  | nil =>
    intro pos h hdrop
    have hrem : RStream.remaining ⟨data, pos⟩ = [] := hdrop
    have hread : read_record_header ⟨data, pos⟩ = (.ok none, ⟨data, pos⟩) := by
      simp [read_record_header, hrem]
    exact extractLoop_done _ _ 0 (by rw [next_no_skip, hread])
  | cons fc rest ih =>
    intro pos h hdrop
    obtain ⟨f, c⟩ := fc
    obtain ⟨hf12, hf0, hfu, hc⟩ := h (f, c) (List.mem_cons_self _ _)
    have hdrop' : data.drop pos = encodeFile (f, c) ++ encodeFiles rest := by
      simpa [encodeFiles] using hdrop
    obtain ⟨hread, hdrop17⟩ :=
      round_step data pos f c (encodeFiles rest) hf12 hf0 hfu hc hdrop'
    obtain ⟨hcopy, hdropc⟩ := copy_at data (pos + 17) c (encodeFiles rest) hdrop17
    have hnext : HogRecordIter.next ⟨⟨data, pos⟩, none, false⟩ =
        (some (.ok ⟨f, c.length⟩), ⟨⟨data, pos + 17⟩, some c.length, false⟩) := by
      rw [next_no_skip, hread]
    have ih' := ih (pos + 17 + c.length)
      (fun fc hm => h fc (List.mem_cons_of_mem _ hm)) hdropc
    exact extractLoop_step _ _ _ ⟨f, c.length⟩ c (rest.length + 1) rest hnext hcopy ih'

lemma appendAll_ok (files : List (List Nat × List Nat)) :
    ∀ pre : List Nat, (∀ fc ∈ files, goodFile fc) →
    appendAll ⟨pre⟩ files = .ok ⟨pre ++ encodeFiles files⟩ := by
  induction files with
  | nil =>
    intro pre h
    simp [appendAll, encodeFiles]
  | cons fc rest ih =>
    intro pre h
    obtain ⟨f, c⟩ := fc
    obtain ⟨hf12, hf0, hfu, hc⟩ := h (f, c) (List.mem_cons_self _ _)
    have hf12' : f.length ≤ 12 := hf12
    have hc2 : c.length ≤ u32MAX := hc
    have hc' : ¬ c.length > u32MAX := by omega
    have hf13 : ¬ 13 ≤ f.length := by omega
    have happ : HogFileWriter.append_file ⟨pre⟩ f c =
        .ok (⟨pre ++ encodeFile (f, c)⟩, c.length) := by
      unfold HogFileWriter.append_file
      rw [if_neg hc', if_neg hf13]
      simp [encodeFile, List.append_assoc]
    unfold appendAll
    rw [happ]
    show appendAll ⟨pre ++ encodeFile (f, c)⟩ rest =
      .ok ⟨pre ++ encodeFiles ((f, c) :: rest)⟩
    rw [ih (pre ++ encodeFile (f, c)) (fun fc hm => h fc (List.mem_cons_of_mem _ hm))]
    simp [encodeFiles, List.append_assoc]

/-- C1: round trip.  For every list of source files (filename bytes,
content bytes) whose final path components are at most 12 bytes (and are
names of real files: nonzero bytes, valid UTF-8) and whose sizes fit the
4-byte length field, creating an archive with `create`, appending each
file in order with `append_file`, opening the result with `open` and
driving the record iterator with `next()` followed by `copy_cur_file` for
each yielded record reproduces the original filenames and the exact
original payload bytes, in the original order. -/
theorem c1_round_trip (files : List (List Nat × List Nat))
    (h : ∀ fc ∈ files, goodFile fc) :
    ∃ w : HogFileWriter, writeAll files = .ok w
      ∧ ∃ r : HogFileReader, HogFileReader.openHog w.file = .ok r
        ∧ extractLoop (HogFileReader.records r) (files.length + 1) =
            some (.ok files) := by
  have hw : writeAll files = .ok ⟨HOG_SIGNATURE ++ encodeFiles files⟩ :=
    appendAll_ok files HOG_SIGNATURE h
  refine ⟨⟨HOG_SIGNATURE ++ encodeFiles files⟩, hw,
    ⟨⟨HOG_SIGNATURE ++ encodeFiles files, 3⟩⟩, ?_, ?_⟩
  · have hlen : 3 ≤ (HOG_SIGNATURE ++ encodeFiles files).length := by
      rw [List.length_append]
      simp [HOG_SIGNATURE]
    show HogFileReader.openHog (HOG_SIGNATURE ++ encodeFiles files) =
      .ok ⟨⟨HOG_SIGNATURE ++ encodeFiles files, 3⟩⟩
    unfold HogFileReader.openHog
    rw [if_neg (by omega), if_pos (List.take_left' (show HOG_SIGNATURE.length = 3 from rfl))]
  · have hdrop : (HOG_SIGNATURE ++ encodeFiles files).drop 3 = encodeFiles files :=
      List.drop_left' (show HOG_SIGNATURE.length = 3 from rfl)
    exact extract_of_encoded files _ 3 h hdrop

/-- Witness for C1 at the two-file example of the specification:
"A.TXT" with content "hi" and "B.BIN" with three bytes. -/
theorem c1_round_trip_witness :
    (∀ fc ∈ ([([65, 46, 84, 88, 84], [104, 105]),
        ([66, 46, 66, 73, 78], [0, 1, 2])] : List (List Nat × List Nat)), goodFile fc)
    ∧ ∃ w : HogFileWriter,
        writeAll [([65, 46, 84, 88, 84], [104, 105]), ([66, 46, 66, 73, 78], [0, 1, 2])] =
          .ok w
        ∧ ∃ r : HogFileReader, HogFileReader.openHog w.file = .ok r
          ∧ extractLoop (HogFileReader.records r) 3 =
              some (.ok [([65, 46, 84, 88, 84], [104, 105]),
                ([66, 46, 66, 73, 78], [0, 1, 2])]) :=
  ⟨by decide, c1_round_trip _ (by decide)⟩
